import Mathlib

/-!
Shallow embedding of the Codex plugin bridge
(`src/install-codex-zsh-hook.js`, second embedded script): event
normalization, name mapping, matcher evaluation, hook dispatch, dedup
cache, incremental tailer, watch lock, manifest reading.

Conventions of the embedding:
* Parsed JSON values are represented by the inductive `JValue`; the
  `JSON.parse` primitive itself is an oracle parameter
  `dec : String → Option JValue` (`none` models a parse exception).
* `Date.parse` is an oracle `dp : String → Option Int` giving epoch
  milliseconds for parseable timestamp strings.
* Regular-expression compilation and testing
  (`new RegExp(m).test(t)`) is an oracle
  `rt : String → Option (String → Bool)`; `none` models a pattern
  that throws at compile time.
* JavaScript numbers are modelled as integers (`Int`), epoch-millisecond
  clock readings as `Nat`.
* File bytes are modelled as `List Char` (one character per byte).
-/

/-- A parsed JSON value, as produced by `JSON.parse`. Objects are
association lists of fields in insertion order (keys unique after
parsing). -/
inductive JValue where
  | jnull
  | jbool (b : Bool)
  | jnum (n : Int)
  | jstr (s : String)
  | jarr (items : List JValue)
  | jobj (fields : List (String × JValue))

/-- Association-list field lookup, first match (post-parse JS objects
have unique keys). -/
def lookupField : List (String × JValue) → String → Option JValue
  | [], _ => none
  | (k, v) :: rest, key => if k = key then some v else lookupField rest key

/-- JavaScript property access `v.key`: `some` for a present field of a
plain object, `none` (undefined) otherwise. Arrays have no string-named
own properties of interest, so field access on them yields `none`. -/
def getFieldJS (v : JValue) (key : String) : Option JValue :=
  match v with
  | JValue.jobj fields => lookupField fields key
  | _ => none

/-- `v` passes the JavaScript guard `v && typeof v === 'object'`
(a non-null object or array). -/
def isObjectLike : JValue → Bool
  | JValue.jobj _ => true
  | JValue.jarr _ => true
  | _ => false

/-- JavaScript falsiness of a parsed JSON value
(`null`, `false`, `0`, `""`). -/
def jsFalsy : JValue → Bool
  | JValue.jnull => true
  | JValue.jbool b => !b
  | JValue.jnum n => n = 0
  | JValue.jstr s => s = ""
  | _ => false

/-- A whitespace character as JavaScript `trim` removes it (the code
only ever tests `!s.trim()`, i.e. blankness). -/
def isWS (c : Char) : Bool :=
  c = ' ' ∨ c = '\t' ∨ c = '\n' ∨ c = '\r'

/-- The JavaScript test `!s.trim()`: the string trims to empty, i.e.
every character is whitespace. -/
def jsBlank (s : String) : Bool :=
  s.data.all isWS

mutual

/-- How one element of a JavaScript array stringifies inside
`Array.prototype.join`: `null` (and `undefined`) become the empty
string, everything else is coerced with `String(·)`; a nested array
joins its own elements with `","`. -/
def elemPiece : JValue → String
  | JValue.jnull => ""
  | JValue.jbool b => if b then "true" else "false"
  | JValue.jnum n => toString n
  | JValue.jstr s => s
  | JValue.jobj _ => "[object Object]"
  | JValue.jarr ys => joinComma ys

/-- `Array.prototype.join(",")` over parsed JSON elements. -/
def joinComma : List JValue → String
  | [] => ""
  | [x] => elemPiece x
  | x :: xs => elemPiece x ++ "," ++ joinComma xs

end

/-- JavaScript `Array.prototype.join(sep)`. -/
def joinElems (sep : String) : List JValue → String
  | [] => ""
  | [x] => elemPiece x
  | x :: xs => elemPiece x ++ sep ++ joinElems sep xs

/-- JavaScript `String(v)` coercion of a parsed JSON value. -/
def jsToString : JValue → String
  | JValue.jnull => "null"
  | JValue.jbool b => if b then "true" else "false"
  | JValue.jnum n => toString n
  | JValue.jstr s => s
  | JValue.jobj _ => "[object Object]"
  | JValue.jarr ys => joinComma ys

/-! ## Manifest reading (`readJsonIfExists`, `readManifest`) -/

/-- The observable state of the manifest file on disk, classified the
way `readJsonIfExists` distinguishes its cases: missing file,
whitespace-only content, content on which `JSON.parse` throws, or
content parsing to a JSON value. -/
inductive FileReadResult where
  | absent
  | blank
  | malformed
  | parsed (v : JValue)

/-- `readJsonIfExists`: `none` when the file is missing or blank, the
parsed value otherwise; malformed JSON raises
(`\x7bfilePath\x7d JSON 解析失败`), modelled as `Except.error` with a
fixed marker standing for the dynamic message. -/
def readJsonIfExists : FileReadResult → Except String (Option JValue)
  | FileReadResult.absent => Except.ok none
  | FileReadResult.blank => Except.ok none
  | FileReadResult.malformed => Except.error "manifest JSON parse failure"
  | FileReadResult.parsed v => Except.ok (some v)

/-- The rule set `readManifest` hands to the dispatcher: raw JSON hook
sources (`manifestPath` is not modelled). -/
structure ManifestModel where
  plugins : List JValue
  topHooks : List JValue

/-- `readManifest`: a missing/blank manifest, or one whose JSON is not
a non-null object/array, yields the empty rule set; `plugins` and
`topHooks` are kept only when they are arrays. The parse exception of
`readJsonIfExists` propagates (there is no catch in the source). -/
def readManifest (f : FileReadResult) : Except String ManifestModel :=
  match readJsonIfExists f with
  | Except.error e => Except.error e
  | Except.ok none => Except.ok ⟨[], []⟩
  | Except.ok (some v) =>
    if isObjectLike v then
      Except.ok
        ⟨(match getFieldJS v "plugins" with
           | some (JValue.jarr xs) => xs
           | _ => []),
         (match getFieldJS v "topHooks" with
           | some (JValue.jarr xs) => xs
           | _ => [])⟩
    else
      Except.ok ⟨[], []⟩

/-! ## Event normalizer (`parseEventTimestampSec`, `parseCodexEvent`) -/

/-- A canonical normalized event:
`\x7brawType, payload, eventTimestampSec\x7d`. -/
structure EventRecord where
  rawType : String
  payload : JValue
  eventTimestampSec : Option Int

/-- `parseEventTimestampSec`: the record must be an object with a
nonblank string `timestamp` that `Date.parse` (oracle `dp`, epoch ms)
accepts; the result is `Math.floor(ms / 1000)`. -/
def parseEventTimestampSec (dp : String → Option Int) (v : JValue) : Option Int :=
  if isObjectLike v then
    match getFieldJS v "timestamp" with
    | some (JValue.jstr s) =>
      if jsBlank s then none
      else
        match dp s with
        | some ms => some (Int.fdiv ms 1000)
        | none => none
    | _ => none
  else none

/-- `JSON.parse(payload.arguments || '{}')`: a nonempty string goes to
the parse oracle; falsy values fall back to `'{}'` (the empty object);
a truthy number or boolean re-parses to itself; the string coercion of
an array or object is modelled as unparseable. -/
def decodeToolArgs (dec : String → Option JValue) : Option JValue → Option JValue
  | some (JValue.jstr s) => if s = "" then some (JValue.jobj []) else dec s
  | none => some (JValue.jobj [])
  | some JValue.jnull => some (JValue.jobj [])
  | some (JValue.jbool b) => if b then some (JValue.jbool true) else some (JValue.jobj [])
  | some (JValue.jnum n) => if n = 0 then some (JValue.jobj []) else some (JValue.jnum n)
  | some _ => none

/-- Update-or-append on an object's field list (JS property
assignment / spread override). -/
def setField : List (String × JValue) → String → JValue → List (String × JValue)
  | [], k, v => [(k, v)]
  | (k', v') :: rest, k, v =>
    if k' = k then (k, v) :: rest else (k', v') :: setField rest k v

/-- The own enumerable fields a JS spread `\x7b...v\x7d` copies:
object fields as-is, array elements under their index keys, nothing
for primitives. -/
def spreadFields : JValue → List (String × JValue)
  | JValue.jobj fs => fs
  | JValue.jarr xs => (xs.enum).map (fun p => (toString p.1, p.2))
  | _ => []

/-- `parseCodexEvent` after `JSON.parse` succeeded on the line: the
`event_msg` envelope keeps the payload's string `type` as `rawType`;
the `response_item`/`function_call` envelope requires a nonempty string
tool name and decoded arguments carrying
`sandbox_permissions === 'require_escalated'`, maps `apply_patch` to
`apply_patch_approval_request` and every other tool to
`exec_approval_request`, and merges `tool_name`/`call_id` into the
argument object as the payload. Everything else is discarded. -/
def parseCodexEventJ (dec : String → Option JValue) (dp : String → Option Int)
    (v : JValue) : Option EventRecord :=
  if isObjectLike v then
    match getFieldJS v "type" with
    | some (JValue.jstr t) =>
      if t = "event_msg" then
        match getFieldJS v "payload" with
        | some p =>
          if isObjectLike p then
            match getFieldJS p "type" with
            | some (JValue.jstr rawType) =>
              some ⟨rawType, p, parseEventTimestampSec dp v⟩
            | _ => none
          else none
        | none => none
      else if t = "response_item" then
        match getFieldJS v "payload" with
        | some p =>
          if isObjectLike p then
            match getFieldJS p "type" with
            | some (JValue.jstr pt) =>
              if pt = "function_call" then
                let toolName :=
                  match getFieldJS p "name" with
                  | some (JValue.jstr s) => s
                  | _ => ""
                if toolName = "" then none
                else
                  match decodeToolArgs dec (getFieldJS p "arguments") with
                  | none => none
                  | some args =>
                    if isObjectLike args then
                      match getFieldJS args "sandbox_permissions" with
                      | some (JValue.jstr perm) =>
                        if perm = "require_escalated" then
                          let rawType :=
                            if toolName = "apply_patch" then "apply_patch_approval_request"
                            else "exec_approval_request"
                          let callId :=
                            match getFieldJS p "call_id" with
                            | some (JValue.jstr s) => s
                            | _ => ""
                          some ⟨rawType,
                            JValue.jobj
                              (setField
                                (setField (spreadFields args) "tool_name" (JValue.jstr toolName))
                                "call_id" (JValue.jstr callId)),
                            parseEventTimestampSec dp v⟩
                        else none
                      | _ => none
                    else none
              else none
            | _ => none
          else none
        | none => none
      else none
    | _ => none
  else none

/-- `parseCodexEvent` on a raw line: `JSON.parse` (oracle `dec`), then
record-shape normalization; a parse exception discards the line. -/
def parseCodexEvent (dec : String → Option JValue) (dp : String → Option Int)
    (line : String) : Option EventRecord :=
  match dec line with
  | none => none
  | some v => parseCodexEventJ dec dp v

/-! ## Event name mapper (`CODEX_EVENT_MAP`, `mapEventNames`) -/

/-- The fixed `CODEX_EVENT_MAP` table. -/
def CODEX_EVENT_MAP : String → Option (List String)
  | "exec_approval_request" => some ["PermissionRequest"]
  | "apply_patch_approval_request" => some ["PermissionRequest"]
  | "request_user_input" => some ["PermissionRequest"]
  | "task_started" => some ["TaskStarted"]
  | "session_configured" => some ["TaskStarted"]
  | "task_complete" => some ["TaskComplete", "Stop"]
  | "error" => some ["ToolError"]
  | "warning" => some ["ToolError"]
  | "turn_aborted" => some ["ToolError"]
  | "stream_error" => some ["ToolError"]
  | "mcp_startup_complete" => some ["MCPStartupComplete"]
  | _ => none

/-- `mapEventNames`: the mapped canonical names
(`CODEX_EVENT_MAP[rawType] || []`) followed by the raw type itself. -/
def mapEventNames (rawType : String) : List String :=
  (CODEX_EVENT_MAP rawType).getD [] ++ [rawType]

/-! ## Matcher evaluation (`buildMatcherText`, `matchesRule`) -/

/-- `buildMatcherText`: raw type, then `tool_name` if a string, then
`command` (array joined with spaces, or string), then `reason`,
`justification` and `call_id` if strings, all joined with spaces. -/
def buildMatcherText (ev : EventRecord) : String :=
  let p := ev.payload
  let parts : List String :=
    [ev.rawType]
    ++ (match getFieldJS p "tool_name" with
        | some (JValue.jstr s) => [s]
        | _ => [])
    ++ (match getFieldJS p "command" with
        | some (JValue.jarr xs) => [joinElems " " xs]
        | some (JValue.jstr s) => [s]
        | _ => [])
    ++ (match getFieldJS p "reason" with
        | some (JValue.jstr s) => [s]
        | _ => [])
    ++ (match getFieldJS p "justification" with
        | some (JValue.jstr s) => [s]
        | _ => [])
    ++ (match getFieldJS p "call_id" with
        | some (JValue.jstr s) => [s]
        | _ => [])
  String.intercalate " " parts

/-- The pattern `new RegExp(·)` would be built from: `none` when the
rule's matcher field is absent or falsy (`!matcher` short-circuits to
a match), otherwise the `String(·)` coercion of the field. -/
def matcherPattern : Option JValue → Option String
  | none => none
  | some v => if jsFalsy v then none else some (jsToString v)

/-- `matchesRule` with the regex oracle `rt`
(`rt pat = none` models a pattern whose compilation throws): no
pattern matches everything, a non-compiling pattern matches nothing,
a compiling pattern defers to its test. -/
def matchesRule (rt : String → Option (String → Bool)) (matcher : Option JValue)
    (text : String) : Bool :=
  match matcherPattern matcher with
  | none => true
  | some pat =>
    match rt pat with
    | none => false
    | some test => test text

/-! ## Hook dispatcher (`executeEvent`) -/

/-- One dispatched hook command, as observed by `runHookCommand`: the
rule's event name, the shell string and the effective timeout
(`Number.isFinite(commandDef.timeout) ? Number(commandDef.timeout) : 10`). -/
structure ExecCmd where
  eventName : String
  command : String
  timeoutSec : Int

/-- The `events` array of a hook source (`[]` when absent or not an
array). -/
def sourceEvents (src : JValue) : List JValue :=
  match getFieldJS src "events" with
  | some (JValue.jarr xs) => xs
  | _ => []

/-- The `commands` array of an event rule (`[]` when absent or not an
array). -/
def ruleCommands (rule : JValue) : List JValue :=
  match getFieldJS rule "commands" with
  | some (JValue.jarr xs) => xs
  | _ => []

/-- The dispatches of one rule's command list: a command definition is
skipped unless its `command` field is a string with nonblank trim;
a non-number `timeout` defaults to 10. -/
def commandExecs (eventName : String) (cmds : List JValue) : List ExecCmd :=
  cmds.filterMap fun c =>
    match getFieldJS c "command" with
    | some (JValue.jstr cmd) =>
      if jsBlank cmd then none
      else
        some ⟨eventName, cmd,
          (match getFieldJS c "timeout" with
           | some (JValue.jnum n) => n
           | _ => 10)⟩
    | _ => none

/-- The dispatches of one event rule for expanded names `names` and
matcher text `text`: the rule fires when its `eventName` is a string
contained in `names` and `matchesRule` accepts. -/
def ruleExecs (rt : String → Option (String → Bool)) (names : List String)
    (text : String) (rule : JValue) : List ExecCmd :=
  match getFieldJS rule "eventName" with
  | some (JValue.jstr en) =>
    if names.contains en then
      if matchesRule rt (getFieldJS rule "matcher") text then
        commandExecs en (ruleCommands rule)
      else []
    else []
  | _ => []

/-- `executeEvent`: plugin sources first, then top-level sources; every
matching rule's commands run synchronously in order. The result is the
ordered list of dispatched commands (debug logging and subprocess
results are not observed here). -/
def executeEvent (rt : String → Option (String → Bool)) (m : ManifestModel)
    (ev : EventRecord) : List ExecCmd :=
  let names := mapEventNames ev.rawType
  let text := buildMatcherText ev
  (m.plugins ++ m.topHooks).flatMap fun src =>
    (sourceEvents src).flatMap fun rule => ruleExecs rt names text rule

/-! ## Dedup cache (`recordAndCheckDuplicateEvent`) -/

/-- `RECENT_EVENT_TTL_MS`. -/
def RECENT_EVENT_TTL_MS : Nat := 30000

/-- `RECENT_EVENT_MAX`. -/
def RECENT_EVENT_MAX : Nat := 2000

/-- Lookup in the insertion-ordered signature map
(`state.recentEvents.get(signature)`). -/
def lookupSig (sig : String) : List (String × Nat) → Option Nat
  | [] => none
  | (k, t) :: rest => if k = sig then some t else lookupSig sig rest

/-- JS `Map.prototype.set`: update in place when the key is present
(keeping its insertion position), append otherwise. -/
def mapSet (sig : String) (nowMs : Nat) : List (String × Nat) → List (String × Nat)
  | [] => [(sig, nowMs)]
  | (k, t) :: rest =>
    if k = sig then (sig, nowMs) :: rest
    else (k, t) :: mapSet sig nowMs rest

/-- The over-capacity trim loop of `recordAndCheckDuplicateEvent`:
walk the map in insertion order, deleting each entry that is older
than TTL or met while the map still holds more than
`RECENT_EVENT_MAX` entries; stop at the first entry that is neither.
`size` tracks `recentEvents.size` during the walk. -/
def trimLoop (nowMs : Nat) : Nat → List (String × Nat) → List (String × Nat)
  | _, [] => []
  | size, (k, seenAt) :: rest =>
    if nowMs - seenAt > RECENT_EVENT_TTL_MS ∨ size > RECENT_EVENT_MAX then
      trimLoop nowMs (size - 1) rest
    else (k, seenAt) :: rest

/-- `recordAndCheckDuplicateEvent`: record `nowMs` as the signature's
last-seen time (even on a hit), trim when over capacity, and report a
duplicate exactly when the previous sighting was within TTL. -/
def recordAndCheckDuplicateEvent (recent : List (String × Nat)) (sig : String)
    (nowMs : Nat) : List (String × Nat) × Bool :=
  let lastSeen := lookupSig sig recent
  let updated := mapSet sig nowMs recent
  let trimmed :=
    if updated.length > RECENT_EVENT_MAX then trimLoop nowMs updated.length updated
    else updated
  (trimmed,
    match lastSeen with
    | some t => decide (nowMs - t ≤ RECENT_EVENT_TTL_MS)
    | none => false)

/-! ## Incremental tailer (`processSessionFile`) -/

/-- Per-file tailer state: consumed byte offset and trailing
incomplete-line remainder. -/
structure TailFileState where
  offset : Nat
  remainder : List Char

/-- `text.split(c)`: always a nonempty list of fragments. -/
def splitOnChar (c : Char) : List Char → List (List Char)
  | [] => [[]]
  | x :: xs =>
    match splitOnChar c xs with
    | [] => [[]]
    | h :: t => if x = c then [] :: h :: t else (x :: h) :: t

/-- The tailer step of `processSessionFile`: on truncation
(`size < offset`) reset the working offset and remainder; when nothing
new is present return with the stored state untouched; otherwise read
the delta, prepend the remainder, split on newline, keep the final
fragment as the new remainder and emit the other fragments as candidate
lines, storing `offset = size`. -/
def tailerStep (content : List Char) (st : TailFileState) :
    TailFileState × List (List Char) :=
  let size := content.length
  let currentOffset := if size < st.offset then 0 else st.offset
  let remainder := if size < st.offset then [] else st.remainder
  if size = currentOffset then (st, [])
  else
    let text := remainder ++ content.drop currentOffset
    let lines := splitOnChar '\n' text
    (⟨size, lines.getLastD []⟩, lines.dropLast)

/-! ## Per-line processing and once-mode run loop (`runOnce`) -/

/-- The `--since` replay-floor gate inside `processSessionFile`: skip
exactly when a positive floor is set and the event carries a timestamp
below it. -/
def sinceSkip (since : Option Int) (ts : Option Int) : Bool :=
  match since, ts with
  | some s, some t => s > 0 && t < s
  | _, _ => false

/-- The body of `processSessionFile`'s per-line loop: skip blank lines,
discard unrecognized records, apply the since floor, then the dedup
gate, and finally dispatch through `executeEvent`. Returns the updated
dedup map and the dispatched commands. -/
def processLine (dec : String → Option JValue) (dp : String → Option Int)
    (rt : String → Option (String → Bool)) (m : ManifestModel)
    (since : Option Int) (nowMs : Nat) (recent : List (String × Nat))
    (line : String) : List (String × Nat) × List ExecCmd :=
  if jsBlank line then (recent, [])
  else
    match parseCodexEvent dec dp line with
    | none => (recent, [])
    | some ev =>
      if sinceSkip since ev.eventTimestampSec then (recent, [])
      else
        let r := recordAndCheckDuplicateEvent recent line nowMs
        if r.2 then (r.1, [])
        else (r.1, executeEvent rt m ev)

/-- One `processSessionFile` pass over a file: tail the new bytes, then
run the per-line loop over the candidate lines in order, threading the
dedup map. -/
def processSessionFilePure (dec : String → Option JValue) (dp : String → Option Int)
    (rt : String → Option (String → Bool)) (m : ManifestModel)
    (since : Option Int) (nowMs : Nat) (st : TailFileState)
    (recent : List (String × Nat)) (content : List Char) :
    TailFileState × List (String × Nat) × List ExecCmd :=
  let tailed := tailerStep content st
  let folded :=
    tailed.2.foldl
      (fun (acc : List (String × Nat) × List ExecCmd) (l : List Char) =>
        let r := processLine dec dp rt m since nowMs acc.1 (String.mk l)
        (r.1, acc.2 ++ r.2))
      (recent, [])
  (tailed.1, folded.1, folded.2)

/-- The synthesized terminal event dispatched under `--emit-stop`:
`\x7b rawType: 'Stop', payload: \x7b\x7d \x7d`. -/
def emitStopEvent : EventRecord :=
  ⟨"Stop", JValue.jobj [], none⟩

/-- `runOnce` on already-located session files (given as contents in
locator order): each file starts from offset 0 with empty remainder
(the once-mode state map starts empty), the dedup map is shared across
files, and an optional synthesized `Stop` event is dispatched directly
at the end — without the since floor or the dedup gate. -/
def runOncePure (dec : String → Option JValue) (dp : String → Option Int)
    (rt : String → Option (String → Bool)) (m : ManifestModel)
    (since : Option Int) (nowMs : Nat) (contents : List (List Char))
    (emitStop : Bool) : List ExecCmd :=
  let folded :=
    contents.foldl
      (fun (acc : List (String × Nat) × List ExecCmd) (content : List Char) =>
        let r := processSessionFilePure dec dp rt m since nowMs ⟨0, []⟩ acc.1 content
        (r.2.1, acc.2 ++ r.2.2))
      ([], [])
  if emitStop then folded.2 ++ executeEvent rt m emitStopEvent else folded.2

/-! ## Watch lock (`parseWatchLockPid`, `isProcessAlive`,
`acquireWatchLock`) -/

/-- The text content of the lock file, classified the way
`parseWatchLockPid` distinguishes its cases: JSON with an integer
`pid` field (what `acquireWatchLock` itself writes, carrying
`createdAt` as well), JSON without one, non-JSON text that trims to an
integer numeral, other non-blank text, or blank text. -/
inductive LockFileText where
  | jsonWithPid (pid : Int) (createdAt : String)
  | jsonOther
  | numericText (pid : Int)
  | unparseable
  | blank

/-- `parseWatchLockPid`: blank text has no pid; parsed JSON yields its
integer `pid` field if any; unparseable text falls back to `Number` of
the trimmed text, kept only when integral. -/
def parseWatchLockPid : LockFileText → Option Int
  | LockFileText.blank => none
  | LockFileText.jsonWithPid pid _ => some pid
  | LockFileText.jsonOther => none
  | LockFileText.numericText pid => some pid
  | LockFileText.unparseable => none

/-- `isProcessAlive` with the `process.kill(pid, 0)` oracle
`kill0 : Int → Bool`: a missing or non-positive pid is never alive.
The `Option` argument matches the JS call sites, which may pass
`null`. -/
def isProcessAlive (kill0 : Int → Bool) : Option Int → Bool
  | none => false
  | some pid => if pid ≤ 0 then false else kill0 pid

/-- `acquireWatchLock` in the race-free sequential model, acting on the
lock path's current content (`none` when the file is absent). Returns
the new content and whether acquisition succeeded (a release closure
was returned). An exclusive create succeeds only on an absent file;
on `EEXIST` the existing descriptor's pid is probed, a live pid makes
the acquisition fail, and a stale lock is deleted and the create
retried once. -/
def acquireWatchLock (kill0 : Int → Bool) (selfPid : Int) (createdAt : String)
    (lockFile : Option LockFileText) : Option LockFileText × Bool :=
  match lockFile with
  | none => (some (LockFileText.jsonWithPid selfPid createdAt), true)
  | some existing =>
    let stale := ! isProcessAlive kill0 (parseWatchLockPid existing)
    if stale then (some (LockFileText.jsonWithPid selfPid createdAt), true)
    else (some existing, false)

/-- The release closure returned by `acquireWatchLock`: re-read the
lock file and delete it only when the recorded pid equals the releasing
process's own pid; a missing file or any other pid is left alone. -/
def releaseWatchLock (selfPid : Int) (lockFile : Option LockFileText) :
    Option LockFileText :=
  match lockFile with
  | none => none
  | some existing =>
    if parseWatchLockPid existing = some selfPid then none else some existing

/-! ## Manifest-shape builders used by the theorems below -/

/-- A manifest `HookCommand` object with only the `command` field
(timeout defaulted). -/
def mkCommand (cmd : String) : JValue :=
  JValue.jobj [("command", JValue.jstr cmd)]

/-- A manifest `EventRule` object with no matcher. -/
def mkRule (name : String) (cmds : List JValue) : JValue :=
  JValue.jobj [("eventName", JValue.jstr name), ("commands", JValue.jarr cmds)]

/-- A manifest `HookSource` object. -/
def mkSource (root : String) (rules : List JValue) : JValue :=
  JValue.jobj [("rootPath", JValue.jstr root), ("events", JValue.jarr rules)]

/-! ## Claim theorems -/

/-- Claim C1: when the lock file exists and its recorded PID is alive,
acquisition fails and leaves the file untouched; when the recorded PID
is not alive, the stale lock is replaced by the caller's own descriptor
and acquisition succeeds; release deletes the lock file exactly when
the recorded PID equals the releasing process's own PID. -/
theorem watchLock_acquire_release_spec (kill0 : Int → Bool) (selfPid : Int)
    (createdAt : String) (existing : LockFileText) :
    (isProcessAlive kill0 (parseWatchLockPid existing) = true →
      acquireWatchLock kill0 selfPid createdAt (some existing) = (some existing, false)) ∧
    (isProcessAlive kill0 (parseWatchLockPid existing) = false →
      acquireWatchLock kill0 selfPid createdAt (some existing) =
        (some (LockFileText.jsonWithPid selfPid createdAt), true)) ∧
    (parseWatchLockPid existing = some selfPid →
      releaseWatchLock selfPid (some existing) = none) ∧
    (parseWatchLockPid existing ≠ some selfPid →
      releaseWatchLock selfPid (some existing) = some existing) := by
  refine ⟨?_, ?_, ?_, ?_⟩ <;> intro h <;>
    simp [acquireWatchLock, releaseWatchLock, h]

/-- Witness for C1 at concrete inputs: a live pid 3 blocks pid 7; a
dead pid 3 is recovered; release removes only a self-owned lock. -/
theorem watchLock_acquire_release_spec_witness :
    acquireWatchLock (fun _ => true) 7 "t0" (some (LockFileText.jsonWithPid 3 "t1")) =
        (some (LockFileText.jsonWithPid 3 "t1"), false) ∧
    acquireWatchLock (fun _ => false) 7 "t0" (some (LockFileText.jsonWithPid 3 "t1")) =
        (some (LockFileText.jsonWithPid 7 "t0"), true) ∧
    releaseWatchLock 7 (some (LockFileText.jsonWithPid 7 "t0")) = none ∧
    releaseWatchLock 7 (some (LockFileText.jsonWithPid 3 "t1")) =
        some (LockFileText.jsonWithPid 3 "t1") :=
  ⟨(watchLock_acquire_release_spec (fun _ => true) 7 "t0"
      (LockFileText.jsonWithPid 3 "t1")).1 (by decide),
   (watchLock_acquire_release_spec (fun _ => false) 7 "t0"
      (LockFileText.jsonWithPid 3 "t1")).2.1 (by decide),
   (watchLock_acquire_release_spec (fun _ => false) 7 "t0"
      (LockFileText.jsonWithPid 7 "t0")).2.2.1 (by decide),
   (watchLock_acquire_release_spec (fun _ => true) 7 "t0"
      (LockFileText.jsonWithPid 3 "t1")).2.2.2 (by decide)⟩

/-- Claim C3 counterexample: a manifest file containing malformed JSON
does not yield the empty rule set — `readManifest` propagates the
`JSON.parse` exception of `readJsonIfExists` as an error. -/
theorem readManifest_malformed_raises_error :
    readManifest FileReadResult.malformed =
      Except.error "manifest JSON parse failure" := rfl

/-- Claim C3 (amended): an absent or blank manifest file, and one whose
JSON is not a non-null object or array, yields the empty rule set
without error; malformed manifest JSON instead raises. -/
theorem readManifest_empty_cases :
    (readManifest FileReadResult.absent = Except.ok ⟨[], []⟩) ∧
    (readManifest FileReadResult.blank = Except.ok ⟨[], []⟩) ∧
    (∀ v : JValue, isObjectLike v = false →
      readManifest (FileReadResult.parsed v) = Except.ok ⟨[], []⟩) ∧
    (readManifest FileReadResult.malformed =
      Except.error "manifest JSON parse failure") := by
  refine ⟨rfl, rfl, ?_, rfl⟩
  intro v h
  simp [readManifest, readJsonIfExists, h]

/-- Witness for C3 (amended) at the concrete non-object manifest
value `null`. -/
theorem readManifest_empty_cases_witness :
    readManifest (FileReadResult.parsed JValue.jnull) = Except.ok ⟨[], []⟩ :=
  readManifest_empty_cases.2.2.1 JValue.jnull (by decide)

/-- A matcher-less single-command rule fires exactly when its
`eventName` is a member of the expanded name list. -/
theorem ruleExecs_mkRule (rt : String → Option (String → Bool))
    (names : List String) (text : String) (n cmd : String)
    (hmem : n ∈ names) (hcmd : jsBlank cmd = false) :
    ruleExecs rt names text (mkRule n [mkCommand cmd]) = [⟨n, cmd, 10⟩] := by
  have hc : names.contains n = true := List.elem_iff.mpr hmem
  simp [ruleExecs, mkRule, mkCommand, getFieldJS, lookupField, hc,
    matchesRule, matcherPattern, ruleCommands, commandExecs, hcmd, hmem]

/-- Claim C7: the expanded canonical name list always contains the raw
type itself; `task_complete` expands to both `TaskComplete` and `Stop`;
and because rule matching tests membership in the expanded list, a
single event satisfies a rule for each of its expanded names — here a
plugin rule and a top-level rule bound to two different names both fire
from one record. -/
theorem mapEventNames_fanout (rt : String → Option (String → Bool)) :
    (∀ rawType : String, rawType ∈ mapEventNames rawType) ∧
    (mapEventNames "task_complete" = ["TaskComplete", "Stop", "task_complete"]) ∧
    (∀ (n1 n2 c1 c2 root1 root2 : String) (ev : EventRecord),
      n1 ∈ mapEventNames ev.rawType → n2 ∈ mapEventNames ev.rawType →
      jsBlank c1 = false → jsBlank c2 = false →
      executeEvent rt
        ⟨[mkSource root1 [mkRule n1 [mkCommand c1]]],
         [mkSource root2 [mkRule n2 [mkCommand c2]]]⟩ ev =
        [⟨n1, c1, 10⟩, ⟨n2, c2, 10⟩]) := by
  refine ⟨?_, rfl, ?_⟩
  · intro rawType
    simp [mapEventNames]
  · intro n1 n2 c1 c2 root1 root2 ev h1 h2 hc1 hc2
    simp [executeEvent, mkSource, sourceEvents, getFieldJS, lookupField,
      ruleExecs_mkRule rt _ _ _ _ h1 hc1, ruleExecs_mkRule rt _ _ _ _ h2 hc2]

/-- Witness for C7: a raw `task_complete` record fires a plugin rule
bound to `TaskComplete` and a top-level rule bound to `Stop`. -/
theorem mapEventNames_fanout_witness :
    executeEvent (fun _ => none)
      ⟨[mkSource "/p1" [mkRule "TaskComplete" [mkCommand "echo a"]]],
       [mkSource "/p2" [mkRule "Stop" [mkCommand "echo b"]]]⟩
      ⟨"task_complete", JValue.jobj [], none⟩ =
      [⟨"TaskComplete", "echo a", 10⟩, ⟨"Stop", "echo b", 10⟩] :=
  (mapEventNames_fanout (fun _ => none)).2.2 "TaskComplete" "Stop" "echo a" "echo b"
    "/p1" "/p2" ⟨"task_complete", JValue.jobj [], none⟩
    (by decide) (by decide) (by decide) (by decide)

/-- Claim C9: an absent, null or empty matcher matches every text; a
matcher whose pattern fails to compile (oracle returns `none`) matches
no text and raises nothing; a compiling matcher matches exactly when
its test accepts the synthesized matcher text; and the synthesized
text is built from the raw type and the payload's command. -/
theorem matchesRule_gating (rt : String → Option (String → Bool)) (text : String) :
    (matchesRule rt none text = true) ∧
    (matchesRule rt (some JValue.jnull) text = true) ∧
    (matchesRule rt (some (JValue.jstr "")) text = true) ∧
    (∀ pat : String, pat ≠ "" → rt pat = none →
      matchesRule rt (some (JValue.jstr pat)) text = false) ∧
    (∀ (pat : String) (test : String → Bool), pat ≠ "" → rt pat = some test →
      matchesRule rt (some (JValue.jstr pat)) text = test text) ∧
    (∀ raw cmd : String,
      buildMatcherText ⟨raw, JValue.jobj [("command", JValue.jstr cmd)], none⟩ =
        raw ++ " " ++ cmd) := by
  refine ⟨rfl, rfl, rfl, ?_, ?_, ?_⟩
  · intro pat hpat hrt
    simp [matchesRule, matcherPattern, jsFalsy, jsToString, hpat, hrt]
  · intro pat test hpat hrt
    simp [matchesRule, matcherPattern, jsFalsy, jsToString, hpat, hrt]
  · intro raw cmd
    rfl

/-- Witness for C9: the spec's own example — on synthesized text
`exec_approval_request rm -rf /tmp`, a compiled matcher testing for
`rm -rf` fires and a non-compiling matcher does not. -/
theorem matchesRule_gating_witness :
    matchesRule
        (fun p => if p = "rm -rf" then some (fun _ => true) else none)
        (some (JValue.jstr "rm -rf")) "exec_approval_request rm -rf /tmp" = true ∧
    matchesRule
        (fun p => if p = "rm -rf" then some (fun _ => true) else none)
        (some (JValue.jstr "(bad")) "exec_approval_request rm -rf /tmp" = false ∧
    buildMatcherText
        ⟨"exec_approval_request", JValue.jobj [("command", JValue.jstr "rm -rf /tmp")], none⟩ =
      "exec_approval_request" ++ " " ++ "rm -rf /tmp" :=
  ⟨(matchesRule_gating (fun p => if p = "rm -rf" then some (fun _ => true) else none)
      "exec_approval_request rm -rf /tmp").2.2.2.2.1 "rm -rf" (fun _ => true)
      (by decide) (by rfl),
   (matchesRule_gating (fun p => if p = "rm -rf" then some (fun _ => true) else none)
      "exec_approval_request rm -rf /tmp").2.2.2.1 "(bad" (by decide) (by rfl),
   (matchesRule_gating (fun _ => none) "").2.2.2.2.2 "exec_approval_request" "rm -rf /tmp"⟩

/-- Claim C10: the synthesized `--emit-stop` event has raw type `Stop`
and an empty payload; once-mode with `--emit-stop` dispatches exactly
the once-mode result followed by the `Stop` dispatches, independent of
the since floor and the dedup state (so each invocation dispatches);
`Stop` has no mapping-table entry, so its expanded list is `["Stop"]`,
a `TaskComplete`-bound rule does not fire for it, and a `Stop`-bound
rule does. -/
theorem emitStop_direct_dispatch (dec : String → Option JValue)
    (dp : String → Option Int) (rt : String → Option (String → Bool))
    (m : ManifestModel) (since : Option Int) (nowMs : Nat)
    (contents : List (List Char)) (root c : String) :
    (emitStopEvent.rawType = "Stop" ∧ emitStopEvent.payload = JValue.jobj []) ∧
    (mapEventNames "Stop" = ["Stop"]) ∧
    (runOncePure dec dp rt m since nowMs contents true =
      runOncePure dec dp rt m since nowMs contents false ++
        executeEvent rt m emitStopEvent) ∧
    (executeEvent rt ⟨[mkSource root [mkRule "TaskComplete" [mkCommand c]]], []⟩
      emitStopEvent = []) ∧
    (jsBlank c = false →
      executeEvent rt ⟨[mkSource root [mkRule "Stop" [mkCommand c]]], []⟩
        emitStopEvent = [⟨"Stop", c, 10⟩]) := by
  refine ⟨⟨rfl, rfl⟩, rfl, rfl, rfl, ?_⟩
  intro hc
  have hmem : "Stop" ∈ mapEventNames emitStopEvent.rawType := by decide
  simp [executeEvent, mkSource, sourceEvents, getFieldJS, lookupField,
    ruleExecs_mkRule rt _ _ _ _ hmem hc]

/-- Witness for C10: a concrete `Stop`-bound rule fires on the
synthesized terminal event. -/
theorem emitStop_direct_dispatch_witness :
    executeEvent (fun _ => none)
      ⟨[mkSource "/p" [mkRule "Stop" [mkCommand "echo done"]]], []⟩
      emitStopEvent = [⟨"Stop", "echo done", 10⟩] :=
  (emitStop_direct_dispatch (fun _ => none) (fun _ => none) (fun _ => none)
    ⟨[], []⟩ none 0 [] "/p" "echo done").2.2.2.2 (by decide)

/-- A `response_item`/`function_call` record with string `name`,
`arguments` and `call_id` fields, as it appears in a session log. -/
def fcRecord (name argsStr callId : String) : JValue :=
  JValue.jobj
    [("type", JValue.jstr "response_item"),
     ("payload", JValue.jobj
       [("type", JValue.jstr "function_call"),
        ("name", JValue.jstr name),
        ("arguments", JValue.jstr argsStr),
        ("call_id", JValue.jstr callId)])]

/-- The decoded arguments of an accepted tool invocation must be
object-like and carry `sandbox_permissions === 'require_escalated'`. -/
def escalatedArgs (args : JValue) : Bool :=
  isObjectLike args &&
    match getFieldJS args "sandbox_permissions" with
    | some (JValue.jstr s) => s = "require_escalated"
    | _ => false

/-- How `parseCodexEventJ` treats a `function_call` record skeleton:
empty tool name discards, then the arguments string is decoded and the
record is kept only when the decoded arguments request escalation. -/
theorem parseCodexEventJ_fcRecord (dec : String → Option JValue)
    (dp : String → Option Int) (name argsStr callId : String) :
    parseCodexEventJ dec dp (fcRecord name argsStr callId) =
      (if name = "" then none
       else
         match decodeToolArgs dec (some (JValue.jstr argsStr)) with
         | none => none
         | some args =>
           if escalatedArgs args then
             some ⟨(if name = "apply_patch" then "apply_patch_approval_request"
                    else "exec_approval_request"),
               JValue.jobj
                 (setField (setField (spreadFields args) "tool_name"
                   (JValue.jstr name)) "call_id" (JValue.jstr callId)),
               parseEventTimestampSec dp (fcRecord name argsStr callId)⟩
           else none) := by
  by_cases hname : name = ""
  · simp [parseCodexEventJ, fcRecord, getFieldJS, lookupField, hname]
  · rcases hargs : decodeToolArgs dec (some (JValue.jstr argsStr)) with _ | args
    · simp [parseCodexEventJ, fcRecord, getFieldJS, lookupField, hname, hargs]
    · rcases args with _ | b | n | s | items | fields
      · simp [parseCodexEventJ, fcRecord, getFieldJS, lookupField, hname, hargs,
          escalatedArgs, isObjectLike]
      · simp [parseCodexEventJ, fcRecord, getFieldJS, lookupField, hname, hargs,
          escalatedArgs, isObjectLike]
      · simp [parseCodexEventJ, fcRecord, getFieldJS, lookupField, hname, hargs,
          escalatedArgs, isObjectLike]
      · simp [parseCodexEventJ, fcRecord, getFieldJS, lookupField, hname, hargs,
          escalatedArgs, isObjectLike]
      · simp [parseCodexEventJ, fcRecord, getFieldJS, lookupField, hname, hargs,
          escalatedArgs, isObjectLike]
      · rcases hf : lookupField fields "sandbox_permissions" with _ | v
        · simp [parseCodexEventJ, fcRecord, getFieldJS, lookupField, hname, hargs,
            escalatedArgs, isObjectLike, hf]
        · rcases v with _ | b | n | s | items | fs
          · simp [parseCodexEventJ, fcRecord, getFieldJS, lookupField, hname,
              hargs, escalatedArgs, isObjectLike, hf]
          · simp [parseCodexEventJ, fcRecord, getFieldJS, lookupField, hname,
              hargs, escalatedArgs, isObjectLike, hf]
          · simp [parseCodexEventJ, fcRecord, getFieldJS, lookupField, hname,
              hargs, escalatedArgs, isObjectLike, hf]
          · by_cases hs : s = "require_escalated" <;>
              simp [parseCodexEventJ, fcRecord, getFieldJS, lookupField, hname,
                hargs, escalatedArgs, isObjectLike, hf, hs]
          · simp [parseCodexEventJ, fcRecord, getFieldJS, lookupField, hname,
              hargs, escalatedArgs, isObjectLike, hf]
          · simp [parseCodexEventJ, fcRecord, getFieldJS, lookupField, hname,
              hargs, escalatedArgs, isObjectLike, hf]

/-- Claim C6: a `function_call` record is normalized only when its
arguments string decodes to an object requesting escalation; the
resulting raw type is the patch approval name exactly for the
`apply_patch` tool and the exec approval name for every other tool;
a missing or empty tool name, an arguments parse failure, or
non-elevated arguments discard the record. -/
theorem parseCodexEvent_function_call_spec (dec : String → Option JValue)
    (dp : String → Option Int) (name argsStr callId : String) :
    (name = "" →
      parseCodexEventJ dec dp (fcRecord name argsStr callId) = none) ∧
    (parseCodexEventJ dec dp
      (JValue.jobj
        [("type", JValue.jstr "response_item"),
         ("payload", JValue.jobj
           [("type", JValue.jstr "function_call"),
            ("arguments", JValue.jstr argsStr)])]) = none) ∧
    (argsStr ≠ "" → dec argsStr = none →
      parseCodexEventJ dec dp (fcRecord name argsStr callId) = none) ∧
    (∀ args : JValue, argsStr ≠ "" → dec argsStr = some args →
      escalatedArgs args = false →
      parseCodexEventJ dec dp (fcRecord name argsStr callId) = none) ∧
    (∀ args : JValue, name ≠ "" → argsStr ≠ "" → dec argsStr = some args →
      escalatedArgs args = true →
      parseCodexEventJ dec dp (fcRecord name argsStr callId) =
        some ⟨(if name = "apply_patch" then "apply_patch_approval_request"
               else "exec_approval_request"),
          JValue.jobj
            (setField (setField (spreadFields args) "tool_name" (JValue.jstr name))
              "call_id" (JValue.jstr callId)),
          parseEventTimestampSec dp (fcRecord name argsStr callId)⟩) := by
  refine ⟨?_, rfl, ?_, ?_, ?_⟩
  · intro h
    rw [parseCodexEventJ_fcRecord]
    simp [h]
  · intro h hdec
    rw [parseCodexEventJ_fcRecord]
    simp [decodeToolArgs, h, hdec]
  · intro args h hdec hesc
    rw [parseCodexEventJ_fcRecord]
    simp [decodeToolArgs, h, hdec, hesc]
  · intro args hname h hdec hesc
    rw [parseCodexEventJ_fcRecord]
    simp [decodeToolArgs, h, hdec, hesc, hname]

/-- Witness for C6: a concrete escalated `apply_patch` invocation is
accepted with the patch approval raw type; a record whose arguments
string does not parse is discarded. -/
theorem parseCodexEvent_function_call_spec_witness :
    parseCodexEventJ
        (fun s => if s = "esc-args" then
          some (JValue.jobj [("sandbox_permissions", JValue.jstr "require_escalated")])
          else none)
        (fun _ => none)
        (fcRecord "apply_patch" "esc-args" "call-1") =
      some ⟨"apply_patch_approval_request",
        JValue.jobj
          [("sandbox_permissions", JValue.jstr "require_escalated"),
           ("tool_name", JValue.jstr "apply_patch"),
           ("call_id", JValue.jstr "call-1")],
        none⟩ ∧
    parseCodexEventJ
        (fun s => if s = "esc-args" then
          some (JValue.jobj [("sandbox_permissions", JValue.jstr "require_escalated")])
          else none)
        (fun _ => none)
        (fcRecord "bash" "other-args" "call-2") = none :=
  ⟨(parseCodexEvent_function_call_spec
      (fun s => if s = "esc-args" then
        some (JValue.jobj [("sandbox_permissions", JValue.jstr "require_escalated")])
        else none)
      (fun _ => none) "apply_patch" "esc-args" "call-1").2.2.2.2
      (JValue.jobj [("sandbox_permissions", JValue.jstr "require_escalated")])
      (by decide) (by decide) (by rfl) (by decide),
   (parseCodexEvent_function_call_spec
      (fun s => if s = "esc-args" then
        some (JValue.jobj [("sandbox_permissions", JValue.jstr "require_escalated")])
        else none)
      (fun _ => none) "bash" "other-args" "call-2").2.2.1
      (by decide) (by rfl)⟩

/-- Setting a signature makes it retrievable with the new time. -/
theorem lookupSig_mapSet_self (sig : String) (nowMs : Nat) :
    ∀ l : List (String × Nat), lookupSig sig (mapSet sig nowMs l) = some nowMs := by
  intro l
  induction l with
  | nil => simp [mapSet, lookupSig]
  | cons hd tl ih =>
    by_cases hk : hd.1 = sig
    · simp [mapSet, lookupSig, hk]
    · simpa [mapSet, lookupSig, hk] using ih

/-- Setting a signature already present keeps the map's size. -/
theorem mapSet_length_of_present (sig : String) (nowMs : Nat) :
    ∀ (l : List (String × Nat)) (t : Nat), lookupSig sig l = some t →
      (mapSet sig nowMs l).length = l.length := by
  intro l
  induction l with
  | nil => intro t h; simp [lookupSig] at h
  | cons hd tl ih =>
    intro t h
    by_cases hk : hd.1 = sig
    · simp [mapSet, hk]
    · simp [lookupSig, hk] at h
      simp [mapSet, hk, ih _ h]

/-- Setting an absent signature appends it at the back. -/
theorem mapSet_of_absent (sig : String) (nowMs : Nat) :
    ∀ l : List (String × Nat), lookupSig sig l = none →
      mapSet sig nowMs l = l ++ [(sig, nowMs)] := by
  intro l
  induction l with
  | nil => intro _; simp [mapSet]
  | cons hd tl ih =>
    intro h
    by_cases hk : hd.1 = sig
    · simp [lookupSig, hk] at h
    · simp [lookupSig, hk] at h
      simp [mapSet, hk, ih h]

/-- Looking up past a prefix that misses the signature. -/
theorem lookupSig_append_of_none (sig : String) :
    ∀ (l m : List (String × Nat)), lookupSig sig l = none →
      lookupSig sig (l ++ m) = lookupSig sig m := by
  intro l
  induction l with
  | nil => intro m _; simp
  | cons hd tl ih =>
    intro m h
    by_cases hk : hd.1 = sig
    · simp [lookupSig, hk] at h
    · simp [lookupSig, hk] at h ⊢
      exact ih m h

/-- The trim loop never drops a just-refreshed signature sitting at the
back of the map: when the walk reaches it, it is not expired and the
running size has fallen to 1. -/
theorem trimLoop_keep_fresh_last (sig : String) (nowMs : Nat) :
    ∀ l : List (String × Nat), lookupSig sig l = none →
      lookupSig sig (trimLoop nowMs (l.length + 1) (l ++ [(sig, nowMs)])) =
        some nowMs := by
  intro l
  induction l with
  | nil =>
    intro _
    simp [trimLoop, RECENT_EVENT_TTL_MS, RECENT_EVENT_MAX, lookupSig]
  | cons hd tl ih =>
    intro h
    by_cases hk : hd.1 = sig
    · simp [lookupSig, hk] at h
    · simp [lookupSig, hk] at h
      by_cases hcond : nowMs - hd.2 > RECENT_EVENT_TTL_MS ∨
          tl.length + 1 + 1 > RECENT_EVENT_MAX
      · have : trimLoop nowMs ((hd :: tl).length + 1) ((hd :: tl) ++ [(sig, nowMs)]) =
            trimLoop nowMs (tl.length + 1) (tl ++ [(sig, nowMs)]) := by
          cases hd with
          | mk k t =>
            simp only [trimLoop, List.length_cons, List.cons_append]
            rw [if_pos]
            · simp
            · simpa using hcond
        rw [this]
        exact ih h
      · cases hd with
        | mk k t =>
          simp only [trimLoop, List.length_cons, List.cons_append]
          rw [if_neg (by simpa using hcond)]
          have hlk : lookupSig sig (tl ++ [(sig, nowMs)]) = some nowMs := by
            rw [lookupSig_append_of_none sig tl _ h]
            simp [lookupSig]
          simp [lookupSig, hk, hlk]

/-- After the trim loop (entered with the true size), the map holds at
most `RECENT_EVENT_MAX` entries. -/
theorem trimLoop_length_le (nowMs : Nat) :
    ∀ l : List (String × Nat), (trimLoop nowMs l.length l).length ≤ RECENT_EVENT_MAX := by
  intro l
  induction l with
  | nil => simp [trimLoop, RECENT_EVENT_MAX]
  | cons hd tl ih =>
    cases hd with
    | mk k t =>
      by_cases hcond : nowMs - t > RECENT_EVENT_TTL_MS ∨
          tl.length + 1 > RECENT_EVENT_MAX
      · simpa [trimLoop, hcond] using ih
      · have hlen : tl.length + 1 ≤ RECENT_EVENT_MAX := by
          rcases not_or.mp hcond with ⟨_, h2⟩
          omega
        simp only [trimLoop, List.length_cons]
        rw [if_neg (by simpa using hcond)]
        simpa using hlen

/-- The trim loop only removes entries from the front: its result is a
suffix of its input (eviction in insertion order). -/
theorem trimLoop_suffix (nowMs : Nat) :
    ∀ (s : Nat) (l : List (String × Nat)), trimLoop nowMs s l <:+ l := by
  intro s l
  induction l generalizing s with
  | nil => simp [trimLoop]
  | cons hd tl ih =>
    cases hd with
    | mk k t =>
      by_cases hcond : nowMs - t > RECENT_EVENT_TTL_MS ∨ s > RECENT_EVENT_MAX
      · simp only [trimLoop]
        rw [if_pos hcond]
        exact (ih (s - 1)).trans (List.suffix_cons (k, t) tl)
      · simp only [trimLoop]
        rw [if_neg hcond]

/-- After any record-and-check, the refreshed signature is present with
the recorded time, provided the cache respected its size invariant
beforehand. -/
theorem recordAndCheck_lookup (l : List (String × Nat)) (sig : String) (nowMs : Nat)
    (hlen : l.length ≤ RECENT_EVENT_MAX) :
    lookupSig sig (recordAndCheckDuplicateEvent l sig nowMs).1 = some nowMs := by
  rcases hprev : lookupSig sig l with _ | t
  · have habs := mapSet_of_absent sig nowMs l hprev
    simp only [recordAndCheckDuplicateEvent]
    by_cases hover : (mapSet sig nowMs l).length > RECENT_EVENT_MAX
    · rw [if_pos hover, habs]
      have hlen : (l ++ [(sig, nowMs)]).length = l.length + 1 := by simp
      rw [hlen]
      exact trimLoop_keep_fresh_last sig nowMs l hprev
    · rw [if_neg hover]
      exact lookupSig_mapSet_self sig nowMs l
  · have hsz : (mapSet sig nowMs l).length = l.length :=
      mapSet_length_of_present sig nowMs l t hprev
    have hnot : ¬ (mapSet sig nowMs l).length > RECENT_EVENT_MAX := by omega
    simp only [recordAndCheckDuplicateEvent]
    rw [if_neg hnot]
    exact lookupSig_mapSet_self sig nowMs l

/-- After any record-and-check, the cache holds at most
`RECENT_EVENT_MAX` entries. -/
theorem recordAndCheck_length_le (l : List (String × Nat)) (sig : String)
    (nowMs : Nat) :
    ((recordAndCheckDuplicateEvent l sig nowMs).1).length ≤ RECENT_EVENT_MAX := by
  simp only [recordAndCheckDuplicateEvent]
  by_cases hover : (mapSet sig nowMs l).length > RECENT_EVENT_MAX
  · rw [if_pos hover]
    exact trimLoop_length_le nowMs (mapSet sig nowMs l)
  · rw [if_neg hover]
    omega

/-- Claim C2: starting from a cache within its size invariant that has
not seen the signature, the first check dispatches; the second check of
the identical raw line is suppressed exactly when it happens within TTL
of the first; every check (the suppressed one included) re-records the
check time, so the window slides. -/
theorem dedup_sliding_window (st : List (String × Nat)) (sig : String) (t1 t2 : Nat)
    (hlen : st.length ≤ RECENT_EVENT_MAX) (hfresh : lookupSig sig st = none)
    (_hord : t1 ≤ t2) :
    (recordAndCheckDuplicateEvent st sig t1).2 = false ∧
    lookupSig sig (recordAndCheckDuplicateEvent st sig t1).1 = some t1 ∧
    (t2 - t1 ≤ RECENT_EVENT_TTL_MS →
      (recordAndCheckDuplicateEvent
        (recordAndCheckDuplicateEvent st sig t1).1 sig t2).2 = true) ∧
    (t2 - t1 > RECENT_EVENT_TTL_MS →
      (recordAndCheckDuplicateEvent
        (recordAndCheckDuplicateEvent st sig t1).1 sig t2).2 = false) ∧
    lookupSig sig
      (recordAndCheckDuplicateEvent
        (recordAndCheckDuplicateEvent st sig t1).1 sig t2).1 = some t2 := by
  have h1 : lookupSig sig (recordAndCheckDuplicateEvent st sig t1).1 = some t1 :=
    recordAndCheck_lookup st sig t1 hlen
  have hb : ((recordAndCheckDuplicateEvent st sig t1).1).length ≤ RECENT_EVENT_MAX :=
    recordAndCheck_length_le st sig t1
  have hsnd : ∀ (l : List (String × Nat)) (t : Nat),
      (recordAndCheckDuplicateEvent l sig t).2 =
        (match lookupSig sig l with
         | some prev => decide (t - prev ≤ RECENT_EVENT_TTL_MS)
         | none => false) := fun _ _ => rfl
  refine ⟨?_, h1, ?_, ?_, ?_⟩
  · rw [hsnd, hfresh]
  · intro hwin
    rw [hsnd, h1]
    exact decide_eq_true hwin
  · intro hout
    rw [hsnd, h1]
    exact decide_eq_false (Nat.not_le.mpr hout)
  · exact recordAndCheck_lookup _ sig t2 hb

/-- Witness for C2: an identical line checked at 1000 ms and 2000 ms
dispatches once then is suppressed; its recorded time slides to the
second check. -/
theorem dedup_sliding_window_witness :
    (recordAndCheckDuplicateEvent [] "line-a" 1000).2 = false ∧
    (recordAndCheckDuplicateEvent
      (recordAndCheckDuplicateEvent [] "line-a" 1000).1 "line-a" 2000).2 = true ∧
    lookupSig "line-a"
      (recordAndCheckDuplicateEvent
        (recordAndCheckDuplicateEvent [] "line-a" 1000).1 "line-a" 2000).1 =
      some 2000 :=
  ⟨(dedup_sliding_window [] "line-a" 1000 2000 (by decide) (by decide) (by decide)).1,
   (dedup_sliding_window [] "line-a" 1000 2000 (by decide) (by decide)
      (by decide)).2.2.1 (by decide),
   (dedup_sliding_window [] "line-a" 1000 2000 (by decide) (by decide)
      (by decide)).2.2.2.2⟩

/-- The eviction policy exactly as the specification words it (the
claim side of C8): entries older than TTL are purged first; if the
cache is still over capacity, eviction proceeds in insertion order
until within the ceiling. -/
def specTwoPhaseTrim (nowMs : Nat) (l : List (String × Nat)) : List (String × Nat) :=
  let purged := l.filter (fun e => decide (nowMs - e.2 ≤ RECENT_EVENT_TTL_MS))
  if purged.length > RECENT_EVENT_MAX then
    purged.drop (purged.length - RECENT_EVENT_MAX)
  else purged

/-- The record step under the claimed two-phase policy: trim only when
insertion pushes the cache over the ceiling. -/
def specDedupInsert (l : List (String × Nat)) (sig : String) (nowMs : Nat) :
    List (String × Nat) :=
  let updated := mapSet sig nowMs l
  if updated.length > RECENT_EVENT_MAX then specTwoPhaseTrim nowMs updated
  else updated

/-- 1998 fresh filler entries, all last seen at 100000 ms. -/
def dedupFiller : List (String × Nat) :=
  (List.range 1998).map (fun i => (String.mk (List.replicate (i + 1) 'k'), 100000))

/-- A reachable cache state: `sig-a` was inserted first but recently
refreshed (a hit keeps its insertion position), `sig-b` was inserted
second and has expired, and 1998 fresh entries follow. -/
def dedupCounterexampleState : List (String × Nat) :=
  ("sig-a", 100000) :: ("sig-b", 60000) :: dedupFiller

/-- No filler key is the inserted signature. -/
theorem dedupFiller_keys : ∀ p ∈ dedupFiller, p.1 ≠ "sig-z" := by
  intro p hp
  simp only [dedupFiller, List.mem_map] at hp
  obtain ⟨i, _, rfl⟩ := hp
  intro h
  have hd : List.replicate (i + 1) 'k' = ['s', 'i', 'g', '-', 'z'] :=
    congrArg String.data h
  rw [List.replicate_succ] at hd
  injection hd with h1 _
  exact absurd h1 (by decide)

/-- Every filler entry was last seen at 100000 ms. -/
theorem dedupFiller_fresh : ∀ p ∈ dedupFiller, p.2 = 100000 := by
  intro p hp
  simp only [dedupFiller, List.mem_map] at hp
  obtain ⟨i, _, rfl⟩ := hp
  rfl

/-- The filler holds 1998 entries. -/
theorem dedupFiller_len : dedupFiller.length = 1998 := by
  simp [dedupFiller]

/-- A signature absent from every entry is not found. -/
theorem lookupSig_eq_none_of_forall (sig : String) :
    ∀ l : List (String × Nat), (∀ p ∈ l, p.1 ≠ sig) → lookupSig sig l = none := by
  intro l
  induction l with
  | nil => intro _; rfl
  | cons hd tl ih =>
    intro h
    have hhd : hd.1 ≠ sig := h hd (List.mem_cons_self hd tl)
    cases hd with
    | mk k t =>
      simp only [lookupSig]
      rw [if_neg hhd]
      exact ih fun p hp => h p (List.mem_cons_of_mem _ hp)

/-- One deleting step of the trim loop. -/
theorem trimLoop_cons_del (nowMs s : Nat) (k : String) (t : Nat)
    (rest : List (String × Nat))
    (h : nowMs - t > RECENT_EVENT_TTL_MS ∨ s > RECENT_EVENT_MAX) :
    trimLoop nowMs s ((k, t) :: rest) = trimLoop nowMs (s - 1) rest := by
  simp only [trimLoop]
  rw [if_pos h]

/-- The trim loop stops immediately on an in-capacity map whose entries
are all fresh. -/
theorem trimLoop_eq_self (nowMs s : Nat) (l : List (String × Nat))
    (hs : ¬ s > RECENT_EVENT_MAX)
    (hfresh : ∀ p ∈ l, ¬ nowMs - p.2 > RECENT_EVENT_TTL_MS) :
    trimLoop nowMs s l = l := by
  cases l with
  | nil => rfl
  | cons hd tl =>
    cases hd with
    | mk k t =>
      simp only [trimLoop]
      rw [if_neg (not_or.mpr ⟨hfresh (k, t) (List.mem_cons_self _ _), hs⟩)]

/-- Claim C8 counterexample: on this over-capacity insertion the code's
single interleaved pass evicts the fresh `sig-a` (met while still over
capacity) and the expired `sig-b`, keeping 1999 entries, whereas the
claimed purge-expired-first-then-evict-in-order policy would purge only
`sig-b` and keep 2000 entries — the resulting caches differ. -/
theorem dedup_eviction_policy_counterexample :
    (recordAndCheckDuplicateEvent dedupCounterexampleState "sig-z" 100000).1 ≠
      specDedupInsert dedupCounterexampleState "sig-z" 100000 := by
  have hnone : lookupSig "sig-z" dedupCounterexampleState = none := by
    refine lookupSig_eq_none_of_forall _ _ ?_
    intro p hp
    simp only [dedupCounterexampleState] at hp
    rcases List.mem_cons.mp hp with rfl | hp
    · decide
    rcases List.mem_cons.mp hp with rfl | hp
    · decide
    exact dedupFiller_keys p hp
  have habs : mapSet "sig-z" 100000 dedupCounterexampleState =
      dedupCounterexampleState ++ [("sig-z", 100000)] :=
    mapSet_of_absent _ _ _ hnone
  have h2001 : (dedupCounterexampleState ++ [("sig-z", 100000)]).length = 2001 := by
    simp [dedupCounterexampleState, dedupFiller_len]
  have hfreshTail : ∀ p ∈ dedupFiller ++ [("sig-z", 100000)],
      ¬ (100000 : Nat) - p.2 > RECENT_EVENT_TTL_MS := by
    intro p hp
    rcases List.mem_append.mp hp with hin | hin
    · rw [dedupFiller_fresh p hin]
      decide
    · rw [List.mem_singleton.mp hin]
      decide
  have hlhs : (recordAndCheckDuplicateEvent dedupCounterexampleState
      "sig-z" 100000).1 = dedupFiller ++ [("sig-z", 100000)] := by
    simp only [recordAndCheckDuplicateEvent]
    rw [habs, h2001, if_pos (by decide : (2001 : Nat) > RECENT_EVENT_MAX)]
    rw [show dedupCounterexampleState ++ [("sig-z", 100000)] =
        ("sig-a", 100000) :: ("sig-b", 60000) ::
          (dedupFiller ++ [("sig-z", 100000)]) from rfl]
    rw [trimLoop_cons_del _ _ _ _ _ (Or.inr (by decide)),
        trimLoop_cons_del _ _ _ _ _ (Or.inl (by decide))]
    exact trimLoop_eq_self _ _ _ (by decide) hfreshTail
  have hrhs : specDedupInsert dedupCounterexampleState "sig-z" 100000 =
      ("sig-a", 100000) :: (dedupFiller ++ [("sig-z", 100000)]) := by
    simp only [specDedupInsert]
    rw [habs, h2001, if_pos (by decide : (2001 : Nat) > RECENT_EVENT_MAX)]
    simp only [specTwoPhaseTrim]
    have hfilter : (dedupCounterexampleState ++ [("sig-z", 100000)]).filter
        (fun e => decide ((100000 : Nat) - e.2 ≤ RECENT_EVENT_TTL_MS)) =
        ("sig-a", 100000) :: (dedupFiller ++ [("sig-z", 100000)]) := by
      rw [show dedupCounterexampleState ++ [("sig-z", 100000)] =
          ("sig-a", 100000) :: ("sig-b", 60000) ::
            (dedupFiller ++ [("sig-z", 100000)]) from rfl]
      rw [List.filter_cons_of_pos (by decide)]
      rw [List.filter_cons_of_neg (by decide)]
      rw [List.filter_eq_self.mpr fun p hp =>
        decide_eq_true (Nat.not_lt.mp (hfreshTail p hp))]
    rw [hfilter]
    have hlen2000 : (("sig-a", (100000 : Nat)) ::
        (dedupFiller ++ [("sig-z", 100000)])).length = 2000 := by
      simp [dedupFiller_len]
    rw [hlen2000, if_neg (by decide : ¬ (2000 : Nat) > RECENT_EVENT_MAX)]
  intro h
  rw [hlhs, hrhs] at h
  exact List.cons_ne_self _ _ h.symm

/-- Claim C8 (amended): after any record-and-check the cache holds at
most the capacity ceiling of entries; eviction removes only a prefix of
the updated map in insertion order (each removed entry was older than
TTL or met while still over capacity), and nothing is evicted while the
updated map is within capacity. -/
theorem dedup_cache_bound (l : List (String × Nat)) (sig : String) (nowMs : Nat) :
    ((recordAndCheckDuplicateEvent l sig nowMs).1).length ≤ RECENT_EVENT_MAX ∧
    ((recordAndCheckDuplicateEvent l sig nowMs).1 <:+ mapSet sig nowMs l) ∧
    ((mapSet sig nowMs l).length ≤ RECENT_EVENT_MAX →
      (recordAndCheckDuplicateEvent l sig nowMs).1 = mapSet sig nowMs l) := by
  refine ⟨recordAndCheck_length_le l sig nowMs, ?_, ?_⟩
  · simp only [recordAndCheckDuplicateEvent]
    by_cases hover : (mapSet sig nowMs l).length > RECENT_EVENT_MAX
    · rw [if_pos hover]
      exact trimLoop_suffix nowMs _ _
    · rw [if_neg hover]
  · intro hle
    simp only [recordAndCheckDuplicateEvent]
    rw [if_neg (by omega)]

/-- Witness for C8 (amended): a small cache is left untrimmed. -/
theorem dedup_cache_bound_witness :
    (recordAndCheckDuplicateEvent [("sig-a", 500)] "sig-b" 600).1 =
      mapSet "sig-b" 600 [("sig-a", 500)] :=
  (dedup_cache_bound [("sig-a", 500)] "sig-b" 600).2.2 (by decide)

/-- Rejoin split fragments with the separator character. -/
def joinLines (c : Char) : List (List Char) → List Char
  | [] => []
  | [p] => p
  | p :: rest => p ++ c :: joinLines c rest

/-- Splitting always yields at least one fragment. -/
theorem splitOnChar_ne_nil (c : Char) : ∀ l : List Char, splitOnChar c l ≠ [] := by
  intro l
  cases l with
  | nil => simp [splitOnChar]
  | cons x xs =>
    simp only [splitOnChar]
    rcases h : splitOnChar c xs with _ | ⟨hd, tl⟩
    · simp
    · by_cases hx : x = c <;> simp [hx]

/-- Splitting and rejoining restores the original character list. -/
theorem joinLines_splitOnChar (c : Char) :
    ∀ l : List Char, joinLines c (splitOnChar c l) = l := by
  intro l
  induction l with
  | nil => rfl
  | cons x xs ih =>
    rcases h : splitOnChar c xs with _ | ⟨hd, tl⟩
    · exact absurd h (splitOnChar_ne_nil c xs)
    · rw [h] at ih
      simp only [splitOnChar, h]
      by_cases hx : x = c
      · rw [if_pos hx, hx]
        simpa [joinLines] using ih
      · rw [if_neg hx]
        cases tl with
        | nil => simpa [joinLines] using ih
        | cons t ts =>
          simp only [joinLines, List.cons_append] at ih ⊢
          rw [ih]

/-- No fragment produced by splitting contains the separator. -/
theorem splitOnChar_not_mem (c : Char) :
    ∀ l : List Char, ∀ part ∈ splitOnChar c l, c ∉ part := by
  intro l
  induction l with
  | nil =>
    intro part hp
    simp [splitOnChar] at hp
    simp [hp]
  | cons x xs ih =>
    intro part hp
    rcases h : splitOnChar c xs with _ | ⟨hd, tl⟩
    · exact absurd h (splitOnChar_ne_nil c xs)
    · simp only [splitOnChar, h] at hp
      by_cases hx : x = c
      · rw [if_pos hx] at hp
        rcases List.mem_cons.mp hp with rfl | hp
        · simp
        · exact ih part (h ▸ hp)
      · rw [if_neg hx] at hp
        rcases List.mem_cons.mp hp with rfl | hp
        · intro hmem
          rcases List.mem_cons.mp hmem with rfl | hmem
          · exact hx rfl
          · exact ih hd (h ▸ List.mem_cons_self hd tl) hmem
        · exact ih part (h ▸ List.mem_cons_of_mem hd hp)

/-- The defaulted last element of a nonempty list is a member. -/
theorem getLastD_mem_of_ne_nil (l : List (List Char)) (h : l ≠ []) :
    l.getLastD [] ∈ l := by
  cases l with
  | nil => exact absurd rfl h
  | cons x xs =>
    rw [List.getLastD_eq_getLast?, List.getLast?_eq_getLast (x :: xs) (by simp)]
    exact List.getLast_mem (by simp)

/-- A nonempty list is its dropped-last part plus its last element. -/
theorem dropLast_append_getLastD (l : List (List Char)) (h : l ≠ []) :
    l.dropLast ++ [l.getLastD []] = l := by
  cases l with
  | nil => exact absurd rfl h
  | cons x xs =>
    rw [List.getLastD_eq_getLast?, List.getLast?_eq_getLast (x :: xs) (by simp)]
    exact List.dropLast_append_getLast (by simp)

/-- Claim C4: the tailer step of `processSessionFile`. A shrunken file
behaves as a reset to offset 0 with empty remainder; an unchanged size
reads nothing and leaves the stored state untouched (including after a
shrink to emptiness, where the reset is not persisted); otherwise the
delta starting at the stored offset is read with the remainder
prepended, the emitted candidate lines and the new remainder are
newline-free pieces that rejoin exactly to that text, the final
fragment is withheld as the new remainder, and the stored offset
becomes the file size. -/
theorem tailer_step_semantics (content : List Char) (st : TailFileState) :
    (content.length < st.offset → content.length ≠ 0 →
      tailerStep content st = tailerStep content ⟨0, []⟩) ∧
    (content.length < st.offset → content.length = 0 →
      tailerStep content st = (st, [])) ∧
    (content.length = st.offset → tailerStep content st = (st, [])) ∧
    (st.offset < content.length →
      ((tailerStep content st).1.offset = content.length ∧
       '\n' ∉ (tailerStep content st).1.remainder ∧
       (∀ l ∈ (tailerStep content st).2, '\n' ∉ l) ∧
       (tailerStep content st).2 ++ [(tailerStep content st).1.remainder] =
         splitOnChar '\n' (st.remainder ++ content.drop st.offset) ∧
       joinLines '\n' ((tailerStep content st).2 ++ [(tailerStep content st).1.remainder]) =
         st.remainder ++ content.drop st.offset)) := by
  refine ⟨?_, ?_, ?_, ?_⟩
  · intro hlt hne
    simp only [tailerStep]
    split_ifs <;> rfl
  · intro hlt hz
    simp only [tailerStep]
    split_ifs
    rfl
  · intro heq
    simp only [tailerStep]
    split_ifs <;> first | rfl | omega
  · intro hlt
    have hbr : tailerStep content st =
        (⟨content.length,
          (splitOnChar '\n' (st.remainder ++ content.drop st.offset)).getLastD []⟩,
         (splitOnChar '\n' (st.remainder ++ content.drop st.offset)).dropLast) := by
      simp only [tailerStep]
      split_ifs <;> first | rfl | omega
    rw [hbr]
    have hsplit : (splitOnChar '\n' (st.remainder ++ content.drop st.offset)).dropLast ++
        [(splitOnChar '\n' (st.remainder ++ content.drop st.offset)).getLastD []] =
        splitOnChar '\n' (st.remainder ++ content.drop st.offset) :=
      dropLast_append_getLastD _ (splitOnChar_ne_nil _ _)
    refine ⟨rfl, ?_, ?_, hsplit, ?_⟩
    · refine splitOnChar_not_mem '\n' (st.remainder ++ content.drop st.offset) _ ?_
      show (splitOnChar '\n' (st.remainder ++ content.drop st.offset)).getLastD [] ∈
        splitOnChar '\n' (st.remainder ++ content.drop st.offset)
      exact getLastD_mem_of_ne_nil _ (splitOnChar_ne_nil _ _)
    · intro l hl
      exact splitOnChar_not_mem '\n' _ l (List.mem_of_mem_dropLast hl)
    · rw [hsplit]
      exact joinLines_splitOnChar '\n' _

/-- Witness for C4: two complete lines and a trailing fragment after a
stored remainder; the emitted lines plus the new remainder rejoin to
the read text and the offset advances to the file size. -/
theorem tailer_step_semantics_witness :
    (tailerStep ("ab\ncd".data) ⟨2, ['x']⟩).1.offset = ("ab\ncd".data).length ∧
    joinLines '\n' ((tailerStep ("ab\ncd".data) ⟨2, ['x']⟩).2 ++
        [(tailerStep ("ab\ncd".data) ⟨2, ['x']⟩).1.remainder]) =
      ['x'] ++ ("ab\ncd".data).drop 2 :=
  ⟨((tailer_step_semantics ("ab\ncd".data) ⟨2, ['x']⟩).2.2.2 (by decide)).1,
   ((tailer_step_semantics ("ab\ncd".data) ⟨2, ['x']⟩).2.2.2 (by decide)).2.2.2.2⟩

/-- A generic `event_msg` session-log record with the given payload
type and timestamp text, as `JSON.parse` would return it. -/
def eventMsgLine (raw ts : String) : JValue :=
  JValue.jobj
    [("type", JValue.jstr "event_msg"),
     ("payload", JValue.jobj [("type", JValue.jstr raw)]),
     ("timestamp", JValue.jstr ts)]

/-- The `JSON.parse` oracle for the C5 scenario: four distinct raw
lines decoding to one `task_started`, two `agent_message` and one
`task_complete` record. -/
def demoDecode : String → Option JValue := fun s =>
  if s = "raw-task-started" then some (eventMsgLine "task_started" "ts-1")
  else if s = "raw-agent-message-1" then some (eventMsgLine "agent_message" "ts-2")
  else if s = "raw-agent-message-2" then some (eventMsgLine "agent_message" "ts-3")
  else if s = "raw-task-complete" then some (eventMsgLine "task_complete" "ts-4")
  else none

/-- The `Date.parse` oracle for the C5 scenario: every timestamp text
is valid. -/
def demoDateParse : String → Option Int := fun s =>
  if s = "ts-1" then some 1767225601000
  else if s = "ts-2" then some 1767225602000
  else if s = "ts-3" then some 1767225603000
  else if s = "ts-4" then some 1767225604000
  else none

/-- A manifest declaring exactly one rule, for event name
`TaskComplete`, with one command. -/
def demoManifest : ManifestModel :=
  ⟨[mkSource "/plugins/demo" [mkRule "TaskComplete" [mkCommand "echo X >> out.log"]]],
   []⟩

/-- The session log for the C5 scenario: four complete lines. -/
def demoSessionLog : List Char :=
  ("raw-task-started\nraw-agent-message-1\nraw-agent-message-2\nraw-task-complete\n").data

/-- Claim C5: a single once-mode pass over the scenario log with the
one-rule manifest and no since floor dispatches the rule's command
exactly once — the one record it fires for carries the
`TaskComplete` name mapped from the raw `task_complete` line. -/
theorem once_mode_end_to_end :
    runOncePure demoDecode demoDateParse (fun _ => none) demoManifest none
      1767225700000 [demoSessionLog] false =
      [⟨"TaskComplete", "echo X >> out.log", 10⟩] := by rfl
